import Mathlib

/-!
Shallow embedding of the OPAQUE wire-message layer of `opaque-ke`
(`src/messages.rs`), together with the pieces of the rest of the crate that
those functions call (`serialization.rs`, `envelope.rs`, `keypair.rs`,
`opaque.rs`, the `voprf` element interface and the key-exchange message
interface).  Byte strings are `List Nat`; fallible Rust functions returning
`Result<_, ProtocolError>` become `Option`-valued Lean functions; the
`&mut &[u8]` "take" style of the Rust deserializers becomes explicit
`(value, rest)` pairs.

A ciphersuite is abstracted as a record of the length constants and of the
canonical-encoding predicates for group elements, public keys and
key-exchange messages, each packaged with the fact that a canonically
encoded value has the advertised fixed length.
-/

namespace Opaque

/-- `NonceLen` from `key_exchange/shared.rs`: nonces are 32 bytes
(spec: `Nn = 32`). -/
def NonceLen : Nat := 32

/-- Abstraction of a `CipherSuite`: the length constants derived from it and
the canonical-encoding predicates of the underlying primitives.
`elemValid b` models "`b` is the canonical encoding of a non-identity OPRF
group element" (the `voprf` crate rejects the identity element and any
non-canonical point on deserialization); `pkValid` models the same for
key-exchange public keys; `keNValid` models "`b` is a well-formed serialized
KEN message" for the plugged-in key exchange. -/
structure Params where
  Noe : Nat
  Npk : Nat
  Nh : Nat
  ke1Len : Nat
  ke2Len : Nat
  ke3Len : Nat
  elemValid : List Nat → Bool
  pkValid : List Nat → Bool
  ke1Valid : List Nat → Bool
  ke2Valid : List Nat → Bool
  ke3Valid : List Nat → Bool
  elemValid_length : ∀ b, elemValid b = true → b.length = Noe
  pkValid_length : ∀ b, pkValid b = true → b.length = Npk
  ke1Valid_length : ∀ b, ke1Valid b = true → b.length = ke1Len
  ke2Valid_length : ∀ b, ke2Valid b = true → b.length = ke2Len
  ke3Valid_length : ∀ b, ke3Valid b = true → b.length = ke3Len

/-- `EnvelopeLen` (`envelope.rs`): nonce plus auth tag, `Nn + Nh`. -/
def EnvelopeLen (P : Params) : Nat := NonceLen + P.Nh

/-- `MaskedResponseLen` (`opaque.rs`): the masked `serverPk ∥ envelope`
block, `Npk + Nenv`. -/
def MaskedResponseLen (P : Params) : Nat := P.Npk + EnvelopeLen P

/-- Modelled from the spec: `SliceExt::take_array` (`serialization.rs`, not
under `src/`).  Splits off a fixed-size prefix of the input slice and
advances the slice past it, failing when fewer than `n` bytes remain; this
is the semantics the in-`src/` callers in `messages.rs` rely on. -/
def takeArray (n : Nat) (input : List Nat) : Option (List Nat × List Nat) :=
  if n ≤ input.length then some (input.take n, input.drop n) else none

/-- Modelled from the spec: `voprf::BlindedElement::deserialize` /
`voprf::EvaluationElement::deserialize` (external `voprf` crate, specified
only by its interface).  Parses the first `Noe` bytes of the input as a
canonical non-identity group element and ignores anything after them; the
in-`src/` caller `CredentialRequest::deserialize_take` passes a slice that
still contains the KE1 message and advances by `BlindedElementLen`
afterwards, which pins down this prefix semantics.  The parsed element is
represented by its canonical encoding. -/
def elemDeserialize (P : Params) (input : List Nat) : Option (List Nat) :=
  if P.elemValid (input.take P.Noe) then some (input.take P.Noe) else none

/-- Common core of the take-style deserializers of fixed-size validated
values: check that the first `n` bytes are a valid encoding, return them and
advance the slice past them. -/
def validTake (valid : List Nat → Bool) (n : Nat) (input : List Nat) :
    Option (List Nat × List Nat) :=
  if valid (input.take n) then some (input.take n, input.drop n) else none

/-- Modelled from the spec: `PublicKey::deserialize_take` (`keypair.rs`, not
under `src/`).  Takes the first `Npk` bytes, requires them to be a canonical
non-identity public-key encoding, and advances the slice. -/
def pkDeserializeTake (P : Params) : List Nat → Option (List Nat × List Nat) :=
  validTake P.pkValid P.Npk

/-- Modelled from the spec: `KE1Message::deserialize_take` of the plugged-in
key exchange (`key_exchange/`, not under `src/`): takes the first `ke1Len`
bytes as a well-formed KE1 message and advances the slice. -/
def ke1DeserializeTake (P : Params) : List Nat → Option (List Nat × List Nat) :=
  validTake P.ke1Valid P.ke1Len

/-- Modelled from the spec: `KE2Message::deserialize_take` of the plugged-in
key exchange (not under `src/`). -/
def ke2DeserializeTake (P : Params) : List Nat → Option (List Nat × List Nat) :=
  validTake P.ke2Valid P.ke2Len

/-- Modelled from the spec: `KE3Message::deserialize_take` of the plugged-in
key exchange (not under `src/`). -/
def ke3DeserializeTake (P : Params) : List Nat → Option (List Nat × List Nat) :=
  validTake P.ke3Valid P.ke3Len

/-- Modelled from the spec: `Envelope` (`envelope.rs`, not under `src/`);
wire format `Nn ∥ Nh = nonce ∥ authTag`. -/
structure Envelope where
  nonce : List Nat
  auth_tag : List Nat
deriving DecidableEq, Repr

/-- Modelled from the spec: `Envelope::serialize` — `nonce ∥ authTag`. -/
def Envelope.serialize (e : Envelope) : List Nat := e.nonce ++ e.auth_tag

/-- Modelled from the spec: `Envelope::deserialize_take` — takes the
`Nn`-byte nonce, then the `Nh`-byte auth tag, advancing the slice. -/
def Envelope.deserialize_take (P : Params) (input : List Nat) :
    Option (Envelope × List Nat) := do
  let (nonce, rest) ← takeArray NonceLen input
  let (tag, rest) ← takeArray P.Nh rest
  pure (⟨nonce, tag⟩, rest)

/-- Modelled from the spec: `Envelope::dummy` (`envelope.rs`) — the fixed
all-zero envelope used only by the unknown-user response path. -/
def Envelope.dummy (P : Params) : Envelope :=
  ⟨List.replicate NonceLen 0, List.replicate P.Nh 0⟩

/-- Modelled from the spec: `MaskedResponse::deserialize_take`
(`opaque.rs`, not under `src/`) — takes the fixed-size masked
`serverPk ∥ envelope` block.  A `MaskedResponse` is represented by its
`Npk + Nenv` bytes, and its `serialize` is the identity on those bytes. -/
def maskedResponseDeserializeTake (P : Params) (input : List Nat) :
    Option (List Nat × List Nat) :=
  takeArray (MaskedResponseLen P) input

/-- Modelled from the spec: `ServerSetup` (`opaque.rs`, not under `src/`):
the server's long-term keypair (private half possibly a remote handle of
type `SK`), the OPRF seed (possibly a remote handle of type `OS`), and the
fake-record public key `dummy_pk` used by the dummy-login path, constant
for the life of the setup. -/
structure ServerSetup (SK OS : Type) where
  oprf_seed : OS
  server_sk : SK
  server_pk : List Nat
  dummy_pk : List Nat

/-- `RegistrationRequest` (`messages.rs`): the blinded password element,
represented by its canonical encoding. -/
structure RegistrationRequest where
  blinded_element : List Nat
deriving DecidableEq, Repr

/-- `RegistrationRequestLen`: `Noe`. -/
def RegistrationRequestLen (P : Params) : Nat := P.Noe

/-- `RegistrationRequest::serialize`: the canonical encoding of the blinded
element. -/
def RegistrationRequest.serialize (m : RegistrationRequest) : List Nat :=
  m.blinded_element

/-- `RegistrationRequest::deserialize`: parses the blinded element from the
input via `voprf::BlindedElement::deserialize`. -/
def RegistrationRequest.deserialize (P : Params) (input : List Nat) :
    Option RegistrationRequest := do
  let b ← elemDeserialize P input
  pure ⟨b⟩

/-- Well-formedness of a `RegistrationRequest` value: its element is a
canonical non-identity encoding. -/
@[reducible] def RegistrationRequest.Valid (P : Params) (m : RegistrationRequest) : Prop :=
  P.elemValid m.blinded_element = true

/-- `RegistrationResponse` (`messages.rs`). -/
structure RegistrationResponse where
  evaluation_element : List Nat
  server_s_pk : List Nat
deriving DecidableEq, Repr

/-- `RegistrationResponseLen`: `Noe + Npk`. -/
def RegistrationResponseLen (P : Params) : Nat := P.Noe + P.Npk

/-- `RegistrationResponse::serialize`: `evalElement ∥ serverPk`. -/
def RegistrationResponse.serialize (m : RegistrationResponse) : List Nat :=
  m.evaluation_element ++ m.server_s_pk

/-- `RegistrationResponse::deserialize`: parses the evaluation element,
advances the slice by `EvaluationElementLen`, then takes the server public
key. -/
def RegistrationResponse.deserialize (P : Params) (input : List Nat) :
    Option RegistrationResponse := do
  let e ← elemDeserialize P input
  let input := input.drop P.Noe
  let (pk, _) ← pkDeserializeTake P input
  pure ⟨e, pk⟩

/-- Well-formedness of a `RegistrationResponse` value. -/
@[reducible] def RegistrationResponse.Valid (P : Params) (m : RegistrationResponse) : Prop :=
  P.elemValid m.evaluation_element = true ∧ P.pkValid m.server_s_pk = true

/-- `RegistrationUpload` (`messages.rs`). -/
structure RegistrationUpload where
  envelope : Envelope
  masking_key : List Nat
  client_s_pk : List Nat
deriving DecidableEq, Repr

/-- `RegistrationUploadLen`: `(Npk + Nh) + Nenv`. -/
def RegistrationUploadLen (P : Params) : Nat :=
  P.Npk + P.Nh + EnvelopeLen P

/-- `RegistrationUpload::serialize`: `clientPk ∥ maskingKey ∥ envelope`. -/
def RegistrationUpload.serialize (m : RegistrationUpload) : List Nat :=
  m.client_s_pk ++ m.masking_key ++ m.envelope.serialize

/-- `RegistrationUpload::deserialize`: takes the client public key, the
hash-output-sized masking key, then the envelope. -/
def RegistrationUpload.deserialize (P : Params) (input : List Nat) :
    Option RegistrationUpload := do
  let (pk, input) ← pkDeserializeTake P input
  let (maskKey, input) ← takeArray P.Nh input
  let (env, _) ← Envelope.deserialize_take P input
  pure ⟨env, maskKey, pk⟩

/-- Well-formedness of a `RegistrationUpload` value. -/
@[reducible] def RegistrationUpload.Valid (P : Params) (m : RegistrationUpload) : Prop :=
  P.pkValid m.client_s_pk = true ∧ m.masking_key.length = P.Nh ∧
    m.envelope.nonce.length = NonceLen ∧ m.envelope.auth_tag.length = P.Nh

/-- `RegistrationUpload::dummy` (`messages.rs`): fabricates the fake record
used for an unknown user.  The rng is modelled as a byte stream
`Nat → Nat`; `rng.fill_bytes` on the default (zeroed) hash-output buffer
yields the first `Nh` bytes of the stream.  The envelope is the fixed dummy
envelope and the client public key is the setup's `dummy_pk`. -/
def RegistrationUpload.dummy {SK OS : Type} (P : Params) (rng : Nat → Nat)
    (server_setup : ServerSetup SK OS) : RegistrationUpload :=
  { envelope := Envelope.dummy P
    masking_key := (List.range P.Nh).map rng
    client_s_pk := server_setup.dummy_pk }

/-- `CredentialRequest` (`messages.rs`). -/
structure CredentialRequest where
  blinded_element : List Nat
  ke1_message : List Nat
deriving DecidableEq, Repr

/-- `CredentialRequestLen`: `Noe + KE1Len`. -/
def CredentialRequestLen (P : Params) : Nat := P.Noe + P.ke1Len

/-- `CredentialRequest::serialize`: `blindedElement ∥ ke1`. -/
def CredentialRequest.serialize (m : CredentialRequest) : List Nat :=
  m.blinded_element ++ m.ke1_message

/-- `CredentialRequest::deserialize_take`: parses the blinded element,
advances the slice by `BlindedElementLen`, then takes the KE1 message. -/
def CredentialRequest.deserialize_take (P : Params) (input : List Nat) :
    Option (CredentialRequest × List Nat) := do
  let b ← elemDeserialize P input
  let input := input.drop P.Noe
  let (ke1, rest) ← ke1DeserializeTake P input
  pure (⟨b, ke1⟩, rest)

/-- `CredentialRequest::deserialize`: `deserialize_take` on the input,
returning the message and discarding the remaining slice. -/
def CredentialRequest.deserialize (P : Params) (input : List Nat) :
    Option CredentialRequest :=
  (CredentialRequest.deserialize_take P input).map (·.1)

/-- Well-formedness of a `CredentialRequest` value. -/
@[reducible] def CredentialRequest.Valid (P : Params) (m : CredentialRequest) : Prop :=
  P.elemValid m.blinded_element = true ∧ P.ke1Valid m.ke1_message = true

/-- `CredentialResponse` (`messages.rs`). -/
structure CredentialResponse where
  evaluation_element : List Nat
  masking_nonce : List Nat
  masked_response : List Nat
  ke2_message : List Nat
deriving DecidableEq, Repr

/-- `CredentialResponseWithoutKeLen`: `(Noe + Nn) + MaskedResponseLen`. -/
def CredentialResponseWithoutKeLen (P : Params) : Nat :=
  P.Noe + NonceLen + MaskedResponseLen P

/-- `CredentialResponseLen`: `CredentialResponseWithoutKeLen + KE2Len`. -/
def CredentialResponseLen (P : Params) : Nat :=
  CredentialResponseWithoutKeLen P + P.ke2Len

/-- `CredentialResponse::serialize`:
`evalElement ∥ maskingNonce ∥ masked ∥ ke2`. -/
def CredentialResponse.serialize (m : CredentialResponse) : List Nat :=
  m.evaluation_element ++ m.masking_nonce ++ m.masked_response ++
    m.ke2_message

/-- `CredentialResponse::deserialize`: parses the evaluation element,
advances the slice by `EvaluationElementLen`, then takes the masking nonce,
the masked response and the KE2 message. -/
def CredentialResponse.deserialize (P : Params) (input : List Nat) :
    Option CredentialResponse := do
  let e ← elemDeserialize P input
  let input := input.drop P.Noe
  let (nonce, input) ← takeArray NonceLen input
  let (masked, input) ← maskedResponseDeserializeTake P input
  let (ke2, _) ← ke2DeserializeTake P input
  pure ⟨e, nonce, masked, ke2⟩

/-- Well-formedness of a `CredentialResponse` value. -/
@[reducible] def CredentialResponse.Valid (P : Params) (m : CredentialResponse) : Prop :=
  P.elemValid m.evaluation_element = true ∧
    m.masking_nonce.length = NonceLen ∧
    m.masked_response.length = MaskedResponseLen P ∧
    P.ke2Valid m.ke2_message = true

/-- `CredentialFinalization` (`messages.rs`). -/
structure CredentialFinalization where
  ke3_message : List Nat
deriving DecidableEq, Repr

/-- `CredentialFinalizationLen`: `KE3Len`. -/
def CredentialFinalizationLen (P : Params) : Nat := P.ke3Len

/-- `CredentialFinalization::serialize`: the serialized KE3 message. -/
def CredentialFinalization.serialize (m : CredentialFinalization) :
    List Nat := m.ke3_message

/-- `CredentialFinalization::deserialize`: takes the KE3 message and
discards the remaining slice. -/
def CredentialFinalization.deserialize (P : Params) (input : List Nat) :
    Option CredentialFinalization := do
  let (ke3, _) ← ke3DeserializeTake P input
  pure ⟨ke3⟩

/-- Well-formedness of a `CredentialFinalization` value. -/
@[reducible] def CredentialFinalization.Valid (P : Params) (m : CredentialFinalization) :
    Prop := P.ke3Valid m.ke3_message = true

/-- Modelled from the spec: the Diffie-Hellman KE2 builder state of
`TripleDh` (`key_exchange/tripledh.rs`, not under `src/`).  `builder()`
performs every step of server login start up to the point where KE2 needs
the long-term private key; what remains recorded is the client's KE1
ephemeral public key (the datum exposed for the external Diffie-Hellman)
and the partial transcript needed to finish KE2. -/
structure Ke2Builder where
  client_e_pk : List Nat
  transcript : List Nat
deriving DecidableEq, Repr

/-- Modelled from the spec: `KeyExchange::ke2_builder_data` for the
Diffie-Hellman key exchange (not under `src/`) — returns the client's KE1
ephemeral public key held in the builder state. -/
def ke2BuilderData (b : Ke2Builder) : List Nat := b.client_e_pk

/-- `ServerLoginBuilder` (`messages.rs`): the private-key handle stored at
creation, the already-computed response parts, and the KE2 builder
state. -/
structure ServerLoginBuilder (SK : Type) where
  server_s_sk : SK
  evaluation_element : List Nat
  masking_nonce : List Nat
  masked_response : List Nat
  ke2_builder : Ke2Builder

/-- `ServerLoginBuilder::data` (`messages.rs`):
`CS::KeyExchange::ke2_builder_data(&self.ke2_builder)`. -/
def ServerLoginBuilder.data {SK : Type} (b : ServerLoginBuilder SK) :
    List Nat := ke2BuilderData b.ke2_builder

/-- `ServerLoginBuilder::private_key` (`messages.rs`): the handle to the
corresponding `ServerSetup`'s private key, `&self.server_s_sk`. -/
def ServerLoginBuilder.private_key {SK : Type} (b : ServerLoginBuilder SK) :
    SK := b.server_s_sk

/-- Modelled from the spec: the result of the shared precomputation of
server login start (`opaque.rs`, not under `src/`) — everything `Start`
computes before KE2 needs the private key: the OPRF evaluation element, the
fresh masking nonce, the masked `serverPk ∥ envelope` block, and the KE2
builder state. -/
structure ServerLoginPre where
  evaluation_element : List Nat
  masking_nonce : List Nat
  masked_response : List Nat
  ke2_builder : Ke2Builder
deriving DecidableEq, Repr

/-- Modelled from the spec: `ServerLogin::builder` (`opaque.rs`, not under
`src/`) packages the precomputation together with the private-key handle
into a `ServerLoginBuilder`. -/
def serverLoginBuilderOf {SK : Type} (sk : SK) (pre : ServerLoginPre) :
    ServerLoginBuilder SK :=
  { server_s_sk := sk
    evaluation_element := pre.evaluation_element
    masking_nonce := pre.masking_nonce
    masked_response := pre.masked_response
    ke2_builder := pre.ke2_builder }

/-- `ServerLoginStartResult` (`opaque.rs`): the `CredentialResponse` wire
message together with the retained server login state (modelled by its
bytes). -/
structure ServerLoginStartResult where
  message : CredentialResponse
  state : List Nat
deriving DecidableEq, Repr

/-- Modelled from the spec: `ServerLoginBuilder::build` → `ServerLogin::build`
(`opaque.rs`, not under `src/`): completes KE2 from the builder state and
the externally computed key-exchange input, and assembles the normal start
result.  `ke2Finish` abstracts the KE2-message completion of the plugged-in
key exchange and `stateFinish` the derivation of the retained server
state. -/
def ServerLoginBuilder.build {SK : Type}
    (ke2Finish : Ke2Builder → List Nat → List Nat)
    (stateFinish : Ke2Builder → List Nat → List Nat)
    (b : ServerLoginBuilder SK) (input : List Nat) : ServerLoginStartResult :=
  { message :=
      { evaluation_element := b.evaluation_element
        masking_nonce := b.masking_nonce
        masked_response := b.masked_response
        ke2_message := ke2Finish b.ke2_builder input }
    state := stateFinish b.ke2_builder input }

/-- Modelled from the spec: the non-builder path `ServerLogin::start`
(`opaque.rs`, not under `src/`): performs the same precomputation, runs the
Diffie-Hellman operation `dh` on the server private key and the client's
KE1 ephemeral public key locally, and completes KE2 with the result. -/
def serverLoginStart {SK : Type}
    (ke2Finish : Ke2Builder → List Nat → List Nat)
    (stateFinish : Ke2Builder → List Nat → List Nat)
    (dh : SK → List Nat → List Nat) (sk : SK) (pre : ServerLoginPre) :
    ServerLoginStartResult :=
  { message :=
      { evaluation_element := pre.evaluation_element
        masking_nonce := pre.masking_nonce
        masked_response := pre.masked_response
        ke2_message :=
          ke2Finish pre.ke2_builder (dh sk pre.ke2_builder.client_e_pk) }
    state := stateFinish pre.ke2_builder (dh sk pre.ke2_builder.client_e_pk) }

/-- A small concrete ciphersuite instance used to evaluate the embedding on
concrete inputs. -/
def testParams : Params where
  Noe := 2
  Npk := 2
  Nh := 2
  ke1Len := 2
  ke2Len := 2
  ke3Len := 1
  elemValid := fun b => b.length == 2 && !(b == List.replicate 2 0)
  pkValid := fun b => b.length == 2 && !(b == List.replicate 2 0)
  ke1Valid := fun b => b.length == 2
  ke2Valid := fun b => b.length == 2
  ke3Valid := fun b => b.length == 1
  elemValid_length := by
    intro b h
    simp only [Bool.and_eq_true, beq_iff_eq] at h
    exact h.1
  pkValid_length := by
    intro b h
    simp only [Bool.and_eq_true, beq_iff_eq] at h
    exact h.1
  ke1Valid_length := by
    intro b h
    simpa using h
  ke2Valid_length := by
    intro b h
    simpa using h
  ke3Valid_length := by
    intro b h
    simpa using h

/-! Helper lemmas about the parsing combinators. -/

theorem takeArray_append {n : Nat} {l₁ : List Nat} (l₂ : List Nat)
    (h : l₁.length = n) : takeArray n (l₁ ++ l₂) = some (l₁, l₂) := by
  unfold takeArray
  rw [if_pos, List.take_left' h, List.drop_left' h]
  rw [List.length_append, ← h]
  exact Nat.le_add_right _ _

theorem takeArray_of_length {n : Nat} {l : List Nat} (h : l.length = n) :
    takeArray n l = some (l, []) := by
  subst h
  unfold takeArray
  rw [if_pos (Nat.le_refl _), List.take_length, List.drop_length]

theorem takeArray_eq_some {n : Nat} {input v rest : List Nat}
    (h : takeArray n input = some (v, rest)) :
    n ≤ input.length ∧ v = input.take n ∧ rest = input.drop n := by
  unfold takeArray at h
  split at h
  · obtain ⟨h₁, h₂⟩ := Prod.mk.injEq .. ▸ Option.some.inj h
    exact ⟨‹_›, h₁.symm, h₂.symm⟩
  · exact absurd h (by simp)

theorem validTake_append {valid : List Nat → Bool} {n : Nat}
    {l₁ : List Nat} (l₂ : List Nat) (hlen : l₁.length = n)
    (hv : valid l₁ = true) : validTake valid n (l₁ ++ l₂) = some (l₁, l₂) := by
  unfold validTake
  rw [List.take_left' hlen, List.drop_left' hlen, if_pos hv]

theorem validTake_of_length {valid : List Nat → Bool} {n : Nat} {l : List Nat}
    (hlen : l.length = n) (hv : valid l = true) :
    validTake valid n l = some (l, []) := by
  have := validTake_append [] hlen hv
  simpa using this

theorem validTake_none {valid : List Nat → Bool} {n : Nat} {input : List Nat}
    (h : valid (input.take n) = false) : validTake valid n input = none := by
  unfold validTake
  rw [h]
  rfl

theorem validTake_eq_some {valid : List Nat → Bool} {n : Nat}
    {input v rest : List Nat}
    (hlen : ∀ b, valid b = true → b.length = n)
    (h : validTake valid n input = some (v, rest)) :
    valid v = true ∧ v = input.take n ∧ rest = input.drop n ∧
      n ≤ input.length := by
  unfold validTake at h
  split at h
  · next hv =>
      obtain ⟨h₁, h₂⟩ := Prod.mk.injEq .. ▸ Option.some.inj h
      subst h₁ h₂
      refine ⟨hv, rfl, rfl, ?_⟩
      have hmin := hlen _ hv
      rw [List.length_take] at hmin
      calc n = min n input.length := hmin.symm
        _ ≤ input.length := Nat.min_le_right _ _
  · exact absurd h (by simp)

theorem validTake_false_of_short {valid : List Nat → Bool} {n : Nat}
    {input : List Nat} (hlen : ∀ b, valid b = true → b.length = n)
    (h : input.length < n) : valid (input.take n) = false := by
  cases hv : valid (input.take n) with
  | false => rfl
  | true =>
      have := hlen _ hv
      rw [List.length_take] at this
      omega

theorem elemDeserialize_append {P : Params} {l₁ : List Nat} (l₂ : List Nat)
    (hv : P.elemValid l₁ = true) : elemDeserialize P (l₁ ++ l₂) = some l₁ := by
  unfold elemDeserialize
  rw [List.take_left' (P.elemValid_length _ hv), if_pos hv]

theorem elemDeserialize_of_valid {P : Params} {l : List Nat}
    (hv : P.elemValid l = true) : elemDeserialize P l = some l := by
  have := elemDeserialize_append [] hv
  simpa using this

theorem elemDeserialize_none {P : Params} {input : List Nat}
    (h : P.elemValid (input.take P.Noe) = false) :
    elemDeserialize P input = none := by
  unfold elemDeserialize
  rw [h]
  rfl

theorem elemDeserialize_eq_some {P : Params} {input e : List Nat}
    (h : elemDeserialize P input = some e) :
    P.elemValid e = true ∧ e = input.take P.Noe ∧ P.Noe ≤ input.length := by
  unfold elemDeserialize at h
  split at h
  · next hv =>
      obtain rfl := Option.some.inj h
      refine ⟨hv, rfl, ?_⟩
      have hmin := P.elemValid_length _ hv
      rw [List.length_take] at hmin
      calc P.Noe = min P.Noe input.length := hmin.symm
        _ ≤ input.length := Nat.min_le_right _ _
  · exact absurd h (by simp)

/-! Length bounds: a successful deserialization consumed at least the
advertised number of bytes, so every slice advance it performed was in
bounds. -/

theorem registration_request_length_le {P : Params}
    {input : List Nat} {m : RegistrationRequest}
    (h : RegistrationRequest.deserialize P input = some m) :
    RegistrationRequestLen P ≤ input.length := by
  simp only [RegistrationRequest.deserialize, bind, Option.bind_eq_some] at h
  obtain ⟨e, he, -⟩ := h
  exact (elemDeserialize_eq_some he).2.2

theorem registration_response_length_le {P : Params}
    {input : List Nat} {m : RegistrationResponse}
    (h : RegistrationResponse.deserialize P input = some m) :
    RegistrationResponseLen P ≤ input.length := by
  simp only [RegistrationResponse.deserialize, bind, Option.bind_eq_some] at h
  obtain ⟨e, he, h⟩ := h
  obtain ⟨⟨pk, rest⟩, hpk, -⟩ := h
  have h₁ := (elemDeserialize_eq_some he).2.2
  have h₂ := (validTake_eq_some (P.pkValid_length) hpk).2.2.2
  rw [List.length_drop] at h₂
  unfold RegistrationResponseLen
  omega

theorem registration_upload_length_le {P : Params}
    {input : List Nat} {m : RegistrationUpload}
    (h : RegistrationUpload.deserialize P input = some m) :
    RegistrationUploadLen P ≤ input.length := by
  simp only [RegistrationUpload.deserialize, Envelope.deserialize_take, bind,
    Option.bind_eq_some] at h
  obtain ⟨⟨pk, r₁⟩, hpk, h⟩ := h
  obtain ⟨⟨maskKey, r₂⟩, hmk, h⟩ := h
  obtain ⟨⟨env, r₄⟩, henv, -⟩ := h
  simp only [bind, Option.bind_eq_some] at henv
  obtain ⟨⟨nonce, r₃⟩, hnonce, henv⟩ := henv
  obtain ⟨⟨tag, r₄'⟩, htag, -⟩ := henv
  obtain ⟨-, -, hr₁, h₁⟩ := validTake_eq_some (P.pkValid_length) hpk
  obtain ⟨h₂, -, hr₂⟩ := takeArray_eq_some hmk
  obtain ⟨h₃, -, hr₃⟩ := takeArray_eq_some hnonce
  obtain ⟨h₄, -, -⟩ := takeArray_eq_some htag
  subst hr₁ hr₂ hr₃
  simp only [List.length_drop] at h₂ h₃ h₄
  unfold RegistrationUploadLen EnvelopeLen
  omega

theorem credential_request_take_length_le {P : Params}
    {input : List Nat} {m : CredentialRequest} {rest : List Nat}
    (h : CredentialRequest.deserialize_take P input = some (m, rest)) :
    CredentialRequestLen P ≤ input.length := by
  simp only [CredentialRequest.deserialize_take, bind, Option.bind_eq_some] at h
  obtain ⟨e, he, h⟩ := h
  obtain ⟨⟨ke1, r⟩, hke1, -⟩ := h
  have h₁ := (elemDeserialize_eq_some he).2.2
  have h₂ := (validTake_eq_some (P.ke1Valid_length) hke1).2.2.2
  rw [List.length_drop] at h₂
  unfold CredentialRequestLen
  omega

theorem credential_request_length_le {P : Params}
    {input : List Nat} {m : CredentialRequest}
    (h : CredentialRequest.deserialize P input = some m) :
    CredentialRequestLen P ≤ input.length := by
  simp only [CredentialRequest.deserialize, Option.map_eq_some'] at h
  obtain ⟨⟨m', rest⟩, h, -⟩ := h
  exact credential_request_take_length_le h

theorem credential_response_length_le {P : Params}
    {input : List Nat} {m : CredentialResponse}
    (h : CredentialResponse.deserialize P input = some m) :
    CredentialResponseLen P ≤ input.length := by
  simp only [CredentialResponse.deserialize, maskedResponseDeserializeTake,
    bind, Option.bind_eq_some] at h
  obtain ⟨e, he, h⟩ := h
  obtain ⟨⟨nonce, r₁⟩, hnonce, h⟩ := h
  obtain ⟨⟨masked, r₂⟩, hmasked, h⟩ := h
  obtain ⟨⟨ke2, r₃⟩, hke2, -⟩ := h
  have h₀ := (elemDeserialize_eq_some he).2.2
  obtain ⟨h₁, -, hr₁⟩ := takeArray_eq_some hnonce
  obtain ⟨h₂, -, hr₂⟩ := takeArray_eq_some hmasked
  have h₃ := (validTake_eq_some (P.ke2Valid_length) hke2).2.2.2
  subst hr₁ hr₂
  simp only [List.length_drop] at h₁ h₂ h₃
  unfold CredentialResponseLen CredentialResponseWithoutKeLen
    MaskedResponseLen EnvelopeLen at *
  omega

theorem credential_finalization_length_le {P : Params}
    {input : List Nat} {m : CredentialFinalization}
    (h : CredentialFinalization.deserialize P input = some m) :
    CredentialFinalizationLen P ≤ input.length := by
  simp only [CredentialFinalization.deserialize, bind, Option.bind_eq_some] at h
  obtain ⟨⟨ke3, r⟩, hke3, -⟩ := h
  exact (validTake_eq_some (P.ke3Valid_length) hke3).2.2.2

/-- C1: for each of the six protocol message types and every valid message
`m` of that type, deserializing the serialization of `m` returns `m`. -/
theorem serialize_deserialize_roundtrip (P : Params) :
    (∀ m : RegistrationRequest, m.Valid P →
      RegistrationRequest.deserialize P m.serialize = some m) ∧
    (∀ m : RegistrationResponse, m.Valid P →
      RegistrationResponse.deserialize P m.serialize = some m) ∧
    (∀ m : RegistrationUpload, m.Valid P →
      RegistrationUpload.deserialize P m.serialize = some m) ∧
    (∀ m : CredentialRequest, m.Valid P →
      CredentialRequest.deserialize P m.serialize = some m) ∧
    (∀ m : CredentialResponse, m.Valid P →
      CredentialResponse.deserialize P m.serialize = some m) ∧
    (∀ m : CredentialFinalization, m.Valid P →
      CredentialFinalization.deserialize P m.serialize = some m) := by
  refine ⟨?_, ?_, ?_, ?_, ?_, ?_⟩
  · rintro ⟨b⟩ hv
    simp only [RegistrationRequest.Valid] at hv
    simp [RegistrationRequest.serialize, RegistrationRequest.deserialize,
      elemDeserialize_of_valid hv]
  · rintro ⟨e, pk⟩ ⟨he, hpk⟩
    have h₁ : elemDeserialize P (e ++ pk) = some e :=
      elemDeserialize_append _ he
    have h₂ : (e ++ pk).drop P.Noe = pk :=
      List.drop_left' (P.elemValid_length _ he)
    have h₃ : pkDeserializeTake P pk = some (pk, []) :=
      validTake_of_length (P.pkValid_length _ hpk) hpk
    simp [RegistrationResponse.serialize, RegistrationResponse.deserialize,
      h₁, h₂, h₃]
  · rintro ⟨⟨nonce, tag⟩, maskKey, pk⟩ ⟨hpk, hmk, hnonce, htag⟩
    have h₁ : pkDeserializeTake P (pk ++ (maskKey ++ (nonce ++ tag))) =
        some (pk, maskKey ++ (nonce ++ tag)) :=
      validTake_append _ (P.pkValid_length _ hpk) hpk
    have h₂ : takeArray P.Nh (maskKey ++ (nonce ++ tag)) =
        some (maskKey, nonce ++ tag) := takeArray_append _ hmk
    have h₃ : takeArray NonceLen (nonce ++ tag) = some (nonce, tag) :=
      takeArray_append _ hnonce
    have h₄ : takeArray P.Nh tag = some (tag, []) := takeArray_of_length htag
    simp [RegistrationUpload.serialize, Envelope.serialize,
      RegistrationUpload.deserialize, Envelope.deserialize_take,
      h₁, h₂, h₃, h₄]
  · rintro ⟨b, ke1⟩ ⟨hb, hke1⟩
    have h₁ : elemDeserialize P (b ++ ke1) = some b :=
      elemDeserialize_append _ hb
    have h₂ : (b ++ ke1).drop P.Noe = ke1 :=
      List.drop_left' (P.elemValid_length _ hb)
    have h₃ : ke1DeserializeTake P ke1 = some (ke1, []) :=
      validTake_of_length (P.ke1Valid_length _ hke1) hke1
    simp [CredentialRequest.serialize, CredentialRequest.deserialize,
      CredentialRequest.deserialize_take, h₁, h₂, h₃]
  · rintro ⟨e, nonce, masked, ke2⟩ ⟨he, hn, hm, hke2⟩
    have h₁ : elemDeserialize P (e ++ (nonce ++ (masked ++ ke2))) = some e :=
      elemDeserialize_append _ he
    have h₂ : (e ++ (nonce ++ (masked ++ ke2))).drop P.Noe =
        nonce ++ (masked ++ ke2) :=
      List.drop_left' (P.elemValid_length _ he)
    have h₃ : takeArray NonceLen (nonce ++ (masked ++ ke2)) =
        some (nonce, masked ++ ke2) := takeArray_append _ hn
    have h₄ : maskedResponseDeserializeTake P (masked ++ ke2) =
        some (masked, ke2) := takeArray_append _ hm
    have h₅ : ke2DeserializeTake P ke2 = some (ke2, []) :=
      validTake_of_length (P.ke2Valid_length _ hke2) hke2
    simp [CredentialResponse.serialize, CredentialResponse.deserialize,
      h₁, h₂, h₃, h₄, h₅]
  · rintro ⟨ke3⟩ hv
    simp only [CredentialFinalization.Valid] at hv
    have h₁ : ke3DeserializeTake P ke3 = some (ke3, []) :=
      validTake_of_length (P.ke3Valid_length _ hv) hv
    simp [CredentialFinalization.serialize, CredentialFinalization.deserialize,
      h₁]

/-- Witness for C1: the round trip evaluated on one concrete valid message
of each of the six types over the concrete test ciphersuite. -/
theorem serialize_deserialize_roundtrip_witness :
    (RegistrationRequest.Valid testParams ⟨[1, 0]⟩ ∧
      RegistrationRequest.deserialize testParams
        (RegistrationRequest.serialize ⟨[1, 0]⟩) = some ⟨[1, 0]⟩) ∧
    (RegistrationResponse.Valid testParams ⟨[1, 0], [3, 4]⟩ ∧
      RegistrationResponse.deserialize testParams
        (RegistrationResponse.serialize ⟨[1, 0], [3, 4]⟩) =
        some ⟨[1, 0], [3, 4]⟩) ∧
    (RegistrationUpload.Valid testParams
        ⟨⟨List.replicate 32 9, [7, 8]⟩, [5, 6], [1, 2]⟩ ∧
      RegistrationUpload.deserialize testParams
        (RegistrationUpload.serialize
          ⟨⟨List.replicate 32 9, [7, 8]⟩, [5, 6], [1, 2]⟩) =
        some ⟨⟨List.replicate 32 9, [7, 8]⟩, [5, 6], [1, 2]⟩) ∧
    (CredentialRequest.Valid testParams ⟨[1, 0], [3, 4]⟩ ∧
      CredentialRequest.deserialize testParams
        (CredentialRequest.serialize ⟨[1, 0], [3, 4]⟩) =
        some ⟨[1, 0], [3, 4]⟩) ∧
    (CredentialResponse.Valid testParams
        ⟨[1, 0], List.replicate 32 2, List.replicate 36 3, [4, 5]⟩ ∧
      CredentialResponse.deserialize testParams
        (CredentialResponse.serialize
          ⟨[1, 0], List.replicate 32 2, List.replicate 36 3, [4, 5]⟩) =
        some ⟨[1, 0], List.replicate 32 2, List.replicate 36 3, [4, 5]⟩) ∧
    (CredentialFinalization.Valid testParams ⟨[6]⟩ ∧
      CredentialFinalization.deserialize testParams
        (CredentialFinalization.serialize ⟨[6]⟩) = some ⟨[6]⟩) :=
  ⟨⟨by decide, (serialize_deserialize_roundtrip testParams).1 _ (by decide)⟩,
   ⟨by decide, (serialize_deserialize_roundtrip testParams).2.1 _ (by decide)⟩,
   ⟨by decide,
     (serialize_deserialize_roundtrip testParams).2.2.1 _ (by decide)⟩,
   ⟨by decide,
     (serialize_deserialize_roundtrip testParams).2.2.2.1 _ (by decide)⟩,
   ⟨by decide,
     (serialize_deserialize_roundtrip testParams).2.2.2.2.1 _ (by decide)⟩,
   ⟨by decide,
     (serialize_deserialize_roundtrip testParams).2.2.2.2.2 _ (by decide)⟩⟩

/-- C2 counterexample: over the concrete test ciphersuite the advertised
`RegistrationRequest` wire length is 2, the input `[1, 0, 7]` has length 3
(a valid encoding followed by one trailing byte), yet
`RegistrationRequest::deserialize` succeeds instead of returning an error:
deserialization does not reject input whose length exceeds the advertised
fixed length. -/
theorem deserialize_accepts_trailing_bytes :
    ([1, 0, 7] : List Nat).length ≠ RegistrationRequestLen testParams ∧
      RegistrationRequest.deserialize testParams [1, 0, 7] =
        some ⟨[1, 0]⟩ := by
  decide

/-- C2 amended: for every message type, deserialization returns an error on
every input strictly shorter than the advertised fixed wire length for that
type; input longer than the advertised length (trailing extra bytes after a
valid encoding) is not rejected — the trailing bytes are ignored. -/
theorem deserialize_rejects_short_input (P : Params) (input : List Nat) :
    (input.length < RegistrationRequestLen P →
      RegistrationRequest.deserialize P input = none) ∧
    (input.length < RegistrationResponseLen P →
      RegistrationResponse.deserialize P input = none) ∧
    (input.length < RegistrationUploadLen P →
      RegistrationUpload.deserialize P input = none) ∧
    (input.length < CredentialRequestLen P →
      CredentialRequest.deserialize P input = none) ∧
    (input.length < CredentialResponseLen P →
      CredentialResponse.deserialize P input = none) ∧
    (input.length < CredentialFinalizationLen P →
      CredentialFinalization.deserialize P input = none) := by
  refine ⟨?_, ?_, ?_, ?_, ?_, ?_⟩ <;> intro hlt
  · cases h : RegistrationRequest.deserialize P input with
    | none => rfl
    | some m =>
        exact absurd (registration_request_length_le h)
          (by omega)
  · cases h : RegistrationResponse.deserialize P input with
    | none => rfl
    | some m =>
        exact absurd (registration_response_length_le h)
          (by omega)
  · cases h : RegistrationUpload.deserialize P input with
    | none => rfl
    | some m =>
        exact absurd (registration_upload_length_le h)
          (by omega)
  · cases h : CredentialRequest.deserialize P input with
    | none => rfl
    | some m =>
        exact absurd (credential_request_length_le h)
          (by omega)
  · cases h : CredentialResponse.deserialize P input with
    | none => rfl
    | some m =>
        exact absurd (credential_response_length_le h)
          (by omega)
  · cases h : CredentialFinalization.deserialize P input with
    | none => rfl
    | some m =>
        exact absurd (credential_finalization_length_le h)
          (by omega)

/-- Witness for the amended C2: a concrete too-short input is rejected by
each of the six deserializers over the test ciphersuite. -/
theorem deserialize_rejects_short_input_witness :
    (([1] : List Nat).length < RegistrationRequestLen testParams ∧
      RegistrationRequest.deserialize testParams [1] = none) ∧
    (([1] : List Nat).length < RegistrationResponseLen testParams ∧
      RegistrationResponse.deserialize testParams [1] = none) ∧
    (([1] : List Nat).length < RegistrationUploadLen testParams ∧
      RegistrationUpload.deserialize testParams [1] = none) ∧
    (([1] : List Nat).length < CredentialRequestLen testParams ∧
      CredentialRequest.deserialize testParams [1] = none) ∧
    (([1] : List Nat).length < CredentialResponseLen testParams ∧
      CredentialResponse.deserialize testParams [1] = none) ∧
    (([] : List Nat).length < CredentialFinalizationLen testParams ∧
      CredentialFinalization.deserialize testParams [] = none) :=
  ⟨⟨by decide, (deserialize_rejects_short_input testParams [1]).1 (by decide)⟩,
   ⟨by decide,
     (deserialize_rejects_short_input testParams [1]).2.1 (by decide)⟩,
   ⟨by decide,
     (deserialize_rejects_short_input testParams [1]).2.2.1 (by decide)⟩,
   ⟨by decide,
     (deserialize_rejects_short_input testParams [1]).2.2.2.1 (by decide)⟩,
   ⟨by decide,
     (deserialize_rejects_short_input testParams [1]).2.2.2.2.1 (by decide)⟩,
   ⟨by decide,
     (deserialize_rejects_short_input testParams []).2.2.2.2.2 (by decide)⟩⟩

/-- C5: every deserializer is a total function into `Option` (it always
returns `some` or `none`; the embedding has no other outcome), and every
slice-advancing step performed inside deserialization is in bounds: a
successful element parse guarantees that the subsequent advance past the
element (`input[ElemLen..]` in `RegistrationResponse::deserialize`,
`CredentialRequest::deserialize_take` and `CredentialResponse::deserialize`)
stays within the input, and a successful `take_array` guarantees its count
was within the remaining input. -/
theorem deserialize_indexing_in_bounds (P : Params) (input : List Nat) :
    (∀ e, elemDeserialize P input = some e → P.Noe ≤ input.length) ∧
    (∀ n v rest, takeArray n input = some (v, rest) → n ≤ input.length) ∧
    (∀ m rest, CredentialRequest.deserialize_take P input = some (m, rest) →
      P.Noe ≤ input.length) ∧
    (∀ m, CredentialResponse.deserialize P input = some m →
      P.Noe ≤ input.length) ∧
    (∀ m, RegistrationResponse.deserialize P input = some m →
      P.Noe ≤ input.length) := by
  refine ⟨?_, ?_, ?_, ?_, ?_⟩
  · intro e he
    exact (elemDeserialize_eq_some he).2.2
  · intro n v rest h
    exact (takeArray_eq_some h).1
  · intro m rest h
    have := credential_request_take_length_le h
    unfold CredentialRequestLen at this
    omega
  · intro m h
    have := credential_response_length_le h
    unfold CredentialResponseLen CredentialResponseWithoutKeLen at this
    omega
  · intro m h
    have := registration_response_length_le h
    unfold RegistrationResponseLen at this
    omega

/-- Witness for C5: in-bounds guarantees evaluated at concrete successful
parses over the test ciphersuite. -/
theorem deserialize_indexing_in_bounds_witness :
    (elemDeserialize testParams [1, 0, 7] = some [1, 0] ∧
      testParams.Noe ≤ ([1, 0, 7] : List Nat).length) ∧
    (takeArray 2 ([5, 6, 7] : List Nat) = some ([5, 6], [7]) ∧
      2 ≤ ([5, 6, 7] : List Nat).length) ∧
    (CredentialRequest.deserialize_take testParams [1, 0, 3, 4] =
        some (⟨[1, 0], [3, 4]⟩, []) ∧
      testParams.Noe ≤ ([1, 0, 3, 4] : List Nat).length) :=
  ⟨⟨by decide,
     (deserialize_indexing_in_bounds testParams [1, 0, 7]).1 [1, 0]
       (by decide)⟩,
   ⟨by decide,
     (deserialize_indexing_in_bounds testParams [5, 6, 7]).2.1 2 [5, 6] [7]
       (by decide)⟩,
   ⟨by decide,
     (deserialize_indexing_in_bounds testParams [1, 0, 3, 4]).2.2.1
       ⟨[1, 0], [3, 4]⟩ [] (by decide)⟩⟩

/-- C6: deserialization of every message type that carries a group element
(blinded element, evaluation element, or public key) returns an error when
the corresponding part of the input is not a canonical non-identity
encoding (the identity element and non-canonical points are exactly the
encodings outside `elemValid` / `pkValid`). -/
theorem deserialize_rejects_invalid_element (P : Params) (input : List Nat) :
    (P.elemValid (input.take P.Noe) = false →
      RegistrationRequest.deserialize P input = none ∧
      RegistrationResponse.deserialize P input = none ∧
      CredentialRequest.deserialize P input = none ∧
      CredentialResponse.deserialize P input = none) ∧
    (P.pkValid ((input.drop P.Noe).take P.Npk) = false →
      RegistrationResponse.deserialize P input = none) ∧
    (P.pkValid (input.take P.Npk) = false →
      RegistrationUpload.deserialize P input = none) := by
  refine ⟨?_, ?_, ?_⟩
  · intro h
    have he := elemDeserialize_none h
    refine ⟨?_, ?_, ?_, ?_⟩
    · simp [RegistrationRequest.deserialize, he]
    · simp [RegistrationResponse.deserialize, he]
    · simp [CredentialRequest.deserialize, CredentialRequest.deserialize_take,
        he]
    · simp [CredentialResponse.deserialize, he]
  · intro h
    cases he : elemDeserialize P input with
    | none => simp [RegistrationResponse.deserialize, he]
    | some e =>
        have hpk : pkDeserializeTake P (input.drop P.Noe) = none :=
          validTake_none h
        simp [RegistrationResponse.deserialize, he, hpk]
  · intro h
    have hpk : pkDeserializeTake P input = none := validTake_none h
    simp [RegistrationUpload.deserialize, hpk]

/-- Witness for C6: over the test ciphersuite, `[0, 0]` is the encoding of
the identity element (rejected by `elemValid` and `pkValid`), and
deserialization of each message type rejects inputs carrying it. -/
theorem deserialize_rejects_invalid_element_witness :
    (testParams.elemValid (([0, 0, 9] : List Nat).take testParams.Noe) =
        false ∧
      RegistrationRequest.deserialize testParams [0, 0, 9] = none ∧
      RegistrationResponse.deserialize testParams [0, 0, 9] = none ∧
      CredentialRequest.deserialize testParams [0, 0, 9] = none ∧
      CredentialResponse.deserialize testParams [0, 0, 9] = none) ∧
    (testParams.pkValid
        ((([1, 0, 0, 0] : List Nat).drop testParams.Noe).take
          testParams.Npk) = false ∧
      RegistrationResponse.deserialize testParams [1, 0, 0, 0] = none) ∧
    (testParams.pkValid (([0, 0, 9] : List Nat).take testParams.Npk) =
        false ∧
      RegistrationUpload.deserialize testParams [0, 0, 9] = none) :=
  ⟨⟨by decide,
     (deserialize_rejects_invalid_element testParams [0, 0, 9]).1
       (by decide)⟩,
   ⟨by decide,
     (deserialize_rejects_invalid_element testParams [1, 0, 0, 0]).2.1
       (by decide)⟩,
   ⟨by decide,
     (deserialize_rejects_invalid_element testParams [0, 0, 9]).2.2
       (by decide)⟩⟩

/-- C3: every valid message serializes to a byte string of exactly the
ciphersuite-derived constant length for its type; in particular any two
valid `CredentialResponse`s — whether produced from a real password file or
from the dummy-record path — serialize to the same length. -/
theorem serialize_length_advertised (P : Params) :
    (∀ m : RegistrationRequest, m.Valid P →
      m.serialize.length = RegistrationRequestLen P) ∧
    (∀ m : RegistrationResponse, m.Valid P →
      m.serialize.length = RegistrationResponseLen P) ∧
    (∀ m : RegistrationUpload, m.Valid P →
      m.serialize.length = RegistrationUploadLen P) ∧
    (∀ m : CredentialRequest, m.Valid P →
      m.serialize.length = CredentialRequestLen P) ∧
    (∀ m : CredentialResponse, m.Valid P →
      m.serialize.length = CredentialResponseLen P) ∧
    (∀ m : CredentialFinalization, m.Valid P →
      m.serialize.length = CredentialFinalizationLen P) ∧
    (∀ m₁ m₂ : CredentialResponse, m₁.Valid P → m₂.Valid P →
      m₁.serialize.length = m₂.serialize.length) := by
  have hcr : ∀ m : CredentialResponse, m.Valid P →
      m.serialize.length = CredentialResponseLen P := by
    rintro m ⟨he, hn, hm, hke2⟩
    have h₁ := P.elemValid_length _ he
    have h₂ := P.ke2Valid_length _ hke2
    simp only [CredentialResponse.serialize, List.length_append,
      CredentialResponseLen, CredentialResponseWithoutKeLen]
    omega
  refine ⟨?_, ?_, ?_, ?_, hcr, ?_, ?_⟩
  · intro m hv
    simp only [RegistrationRequest.Valid] at hv
    simpa [RegistrationRequest.serialize, RegistrationRequestLen] using
      P.elemValid_length _ hv
  · rintro m ⟨he, hpk⟩
    have h₁ := P.elemValid_length _ he
    have h₂ := P.pkValid_length _ hpk
    simp only [RegistrationResponse.serialize, List.length_append,
      RegistrationResponseLen]
    omega
  · rintro m ⟨hpk, hmk, hnonce, htag⟩
    have h₁ := P.pkValid_length _ hpk
    simp only [RegistrationUpload.serialize, Envelope.serialize,
      List.length_append, RegistrationUploadLen, EnvelopeLen]
    omega
  · rintro m ⟨hb, hke1⟩
    have h₁ := P.elemValid_length _ hb
    have h₂ := P.ke1Valid_length _ hke1
    simp only [CredentialRequest.serialize, List.length_append,
      CredentialRequestLen]
    omega
  · intro m hv
    simp only [CredentialFinalization.Valid] at hv
    simpa [CredentialFinalization.serialize, CredentialFinalizationLen] using
      P.ke3Valid_length _ hv
  · intro m₁ m₂ h₁ h₂
    rw [hcr m₁ h₁, hcr m₂ h₂]

/-- Witness for C3: the advertised lengths evaluated on one concrete valid
message of each type over the test ciphersuite. -/
theorem serialize_length_advertised_witness :
    (RegistrationRequest.Valid testParams ⟨[1, 0]⟩ ∧
      (RegistrationRequest.serialize ⟨[1, 0]⟩).length =
        RegistrationRequestLen testParams) ∧
    (RegistrationUpload.Valid testParams
        ⟨⟨List.replicate 32 9, [7, 8]⟩, [5, 6], [1, 2]⟩ ∧
      (RegistrationUpload.serialize
        ⟨⟨List.replicate 32 9, [7, 8]⟩, [5, 6], [1, 2]⟩).length =
        RegistrationUploadLen testParams) ∧
    (CredentialResponse.Valid testParams
        ⟨[1, 0], List.replicate 32 2, List.replicate 36 3, [4, 5]⟩ ∧
      (CredentialResponse.serialize
        ⟨[1, 0], List.replicate 32 2, List.replicate 36 3, [4, 5]⟩).length =
        CredentialResponseLen testParams) :=
  ⟨⟨by decide, (serialize_length_advertised testParams).1 ⟨[1, 0]⟩
      (by decide)⟩,
   ⟨by decide, (serialize_length_advertised testParams).2.2.1
      ⟨⟨List.replicate 32 9, [7, 8]⟩, [5, 6], [1, 2]⟩ (by decide)⟩,
   ⟨by decide, (serialize_length_advertised testParams).2.2.2.2.1
      ⟨[1, 0], List.replicate 32 2, List.replicate 36 3, [4, 5]⟩
      (by decide)⟩⟩

/-- C7: serialization writes the fields in wire order.  A serialized
`CredentialResponse` is the concatenation evaluation element, masking
nonce, masked response, KE2 message — equivalently, for a valid message the
slices of the output at the advertised offsets recover exactly the fields —
and a serialized `RegistrationUpload` is the concatenation client public
key, masking key, envelope. -/
theorem serialize_field_order (P : Params) :
    (∀ m : CredentialResponse,
      m.serialize = m.evaluation_element ++ m.masking_nonce ++
        m.masked_response ++ m.ke2_message) ∧
    (∀ m : CredentialResponse, m.Valid P →
      m.serialize.take P.Noe = m.evaluation_element ∧
      (m.serialize.drop P.Noe).take NonceLen = m.masking_nonce ∧
      ((m.serialize.drop P.Noe).drop NonceLen).take (MaskedResponseLen P) =
        m.masked_response ∧
      ((m.serialize.drop P.Noe).drop NonceLen).drop (MaskedResponseLen P) =
        m.ke2_message) ∧
    (∀ m : RegistrationUpload,
      m.serialize = m.client_s_pk ++ m.masking_key ++
        m.envelope.serialize) ∧
    (∀ m : RegistrationUpload, m.Valid P →
      m.serialize.take P.Npk = m.client_s_pk ∧
      (m.serialize.drop P.Npk).take P.Nh = m.masking_key ∧
      (m.serialize.drop P.Npk).drop P.Nh = m.envelope.serialize) := by
  refine ⟨fun m => rfl, ?_, fun m => rfl, ?_⟩
  · rintro m ⟨he, hn, hm, hke2⟩
    have h₁ := P.elemValid_length _ he
    simp only [CredentialResponse.serialize, List.append_assoc]
    rw [List.drop_left' h₁, List.take_left' h₁, List.drop_left' hn,
      List.take_left' hn, List.drop_left' hm, List.take_left' hm]
    exact ⟨rfl, rfl, rfl, rfl⟩
  · rintro m ⟨hpk, hmk, hnonce, htag⟩
    have h₁ := P.pkValid_length _ hpk
    simp only [RegistrationUpload.serialize, List.append_assoc]
    rw [List.drop_left' h₁, List.take_left' h₁, List.drop_left' hmk,
      List.take_left' hmk]
    exact ⟨rfl, rfl, rfl⟩

/-- Witness for C7: the offset extraction evaluated on concrete valid
messages over the test ciphersuite. -/
theorem serialize_field_order_witness :
    (CredentialResponse.Valid testParams
        ⟨[1, 0], List.replicate 32 2, List.replicate 36 3, [4, 5]⟩ ∧
      (CredentialResponse.serialize
        ⟨[1, 0], List.replicate 32 2, List.replicate 36 3, [4, 5]⟩).take
          testParams.Noe = [1, 0]) ∧
    (RegistrationUpload.Valid testParams
        ⟨⟨List.replicate 32 9, [7, 8]⟩, [5, 6], [1, 2]⟩ ∧
      (RegistrationUpload.serialize
        ⟨⟨List.replicate 32 9, [7, 8]⟩, [5, 6], [1, 2]⟩).take
          testParams.Npk = [1, 2]) :=
  ⟨⟨by decide,
     ((serialize_field_order testParams).2.1
       ⟨[1, 0], List.replicate 32 2, List.replicate 36 3, [4, 5]⟩
       (by decide)).1⟩,
   ⟨by decide,
     ((serialize_field_order testParams).2.2.2
       ⟨⟨List.replicate 32 9, [7, 8]⟩, [5, 6], [1, 2]⟩ (by decide)).1⟩⟩

/-- C4: `RegistrationUpload::dummy` returns an upload whose envelope is the
fixed all-zero dummy envelope, whose masking key is a fresh
hash-output-sized block drawn from the rng (the first `Nh` bytes of the
stream), and whose client public key equals the setup's `dummy_pk`, which
does not depend on the rng and is therefore constant for the life of the
setup. -/
theorem dummy_upload_fields {SK OS : Type} (P : Params) (rng : Nat → Nat)
    (setup : ServerSetup SK OS) :
    (RegistrationUpload.dummy P rng setup).envelope = Envelope.dummy P ∧
    Envelope.dummy P =
      ⟨List.replicate NonceLen 0, List.replicate P.Nh 0⟩ ∧
    (RegistrationUpload.dummy P rng setup).masking_key =
      (List.range P.Nh).map rng ∧
    (RegistrationUpload.dummy P rng setup).masking_key.length = P.Nh ∧
    (RegistrationUpload.dummy P rng setup).client_s_pk = setup.dummy_pk ∧
    ∀ rng' : Nat → Nat,
      (RegistrationUpload.dummy P rng' setup).client_s_pk =
        (RegistrationUpload.dummy P rng setup).client_s_pk := by
  refine ⟨rfl, rfl, rfl, ?_, rfl, fun rng' => rfl⟩
  simp [RegistrationUpload.dummy]

/-- C10: in `RegistrationUpload::dummy` only the masking key depends on the
rng — for any two rngs and the same setup the envelope and client public
key agree — and the masking key is exactly the first `Nh` bytes the rng
produces. -/
theorem dummy_upload_rng_dependence {SK OS : Type} (P : Params)
    (rng₁ rng₂ : Nat → Nat) (setup : ServerSetup SK OS) :
    (RegistrationUpload.dummy P rng₁ setup).envelope =
      (RegistrationUpload.dummy P rng₂ setup).envelope ∧
    (RegistrationUpload.dummy P rng₁ setup).client_s_pk =
      (RegistrationUpload.dummy P rng₂ setup).client_s_pk ∧
    (RegistrationUpload.dummy P rng₁ setup).masking_key =
      (List.range P.Nh).map rng₁ :=
  ⟨rfl, rfl, rfl⟩

/-- C8: `ServerLoginBuilder::private_key` returns exactly the private-key
handle stored in the builder at creation, and `ServerLoginBuilder::data`
returns the key-exchange builder data, which for the Diffie-Hellman key
exchange is the client's KE1 ephemeral public key recorded in the builder
state. -/
theorem server_login_builder_accessors {SK : Type} (sk : SK)
    (pre : ServerLoginPre) (b : ServerLoginBuilder SK) :
    b.private_key = b.server_s_sk ∧
    b.data = b.ke2_builder.client_e_pk ∧
    (serverLoginBuilderOf sk pre).private_key = sk ∧
    (serverLoginBuilderOf sk pre).data = pre.ke2_builder.client_e_pk :=
  ⟨rfl, rfl, rfl, rfl⟩

/-- C9: running the remote-key path — `ServerLogin::builder`, externally
performing the Diffie-Hellman operation on the exposed `data()`, then
`ServerLoginBuilder::build` with the result — produces a start result equal
to the one produced by the non-builder `ServerLogin::start` path on the
same inputs, with byte-identical serialized credential responses. -/
theorem builder_path_eq_start {SK : Type}
    (ke2Finish stateFinish : Ke2Builder → List Nat → List Nat)
    (dh : SK → List Nat → List Nat) (sk : SK) (pre : ServerLoginPre) :
    ServerLoginBuilder.build ke2Finish stateFinish
        (serverLoginBuilderOf sk pre)
        (dh sk (serverLoginBuilderOf sk pre).data) =
      serverLoginStart ke2Finish stateFinish dh sk pre ∧
    (ServerLoginBuilder.build ke2Finish stateFinish
        (serverLoginBuilderOf sk pre)
        (dh sk (serverLoginBuilderOf sk pre).data)).message.serialize =
      (serverLoginStart ke2Finish stateFinish dh sk pre).message.serialize :=
  ⟨rfl, rfl⟩

end Opaque
